import Mathlib

/-!
Verification of the feed-entry selection and normalization pipeline of the
aws-weekly-news-mcp repository (src/util.py, src/models.py), shallowly
embedded in Lean 4.

External collaborators (the Python `datetime` constructor, the pydantic
`AnyUrl` validator, the HTTP client, the readability renderer, the page
scraper) are modelled at their interface boundary as explicit parameters or
executable boundary functions.  Fallible Python code is modelled in
`Except String`; logging is modelled by returning an explicit list of log
entries.
-/

namespace AwsWeeklyNews

/-! ## Logging model -/

inductive LogLevel where
  | debug
  | info
  | warning
  | error
deriving DecidableEq

/-- One structured log line.  `excInfo` models loguru's `exc_info=True`
keyword, i.e. whether a stack trace is preserved with the message. -/
structure LogEntry where
  level : LogLevel
  msg : String
  excInfo : Bool
deriving DecidableEq

def infoLog (m : String) : LogEntry := ⟨LogLevel.info, m, false⟩

def warnLog (m : String) : LogEntry := ⟨LogLevel.warning, m, false⟩

def errorLog (m : String) : LogEntry := ⟨LogLevel.error, m, false⟩

/-! ## String helpers used by the embedding

Python `in` on strings is a contiguous-substring test; `s[:n]` is a
character-count truncation; `s.lower()` maps each character to lower case.
We define these over the character list of a `String`. -/

def headMatches : List Char → List Char → Bool
  | [], _ => true
  | _ :: _, [] => false
  | p :: ps, c :: cs => p == c && headMatches ps cs

def subListAt (pat : List Char) : List Char → Bool
  | [] => headMatches pat []
  | c :: cs => headMatches pat (c :: cs) || subListAt pat cs

/-- Python `pat in s` (contiguous substring test). -/
def strContains (s pat : String) : Bool :=
  subListAt pat.data s.data

/-- Python `s[:n]` (truncation to at most `n` characters). -/
def pySlice (s : String) (n : Nat) : String :=
  String.mk (s.data.take n)

/-- Python `s.lower()`. -/
def pyLower (s : String) : String :=
  String.mk (s.data.map Char.toLower)

/-! ## Time model

The source converts feedparser's broken-down `published_parsed` tuple with
`datetime(*entry.published_parsed[:6], tzinfo=UTC)`.  `datetime` is an
external collaborator: we model it at the boundary as a conversion from the
first six tuple fields to UTC epoch seconds, failing (as the constructor
does, with `ValueError`/`TypeError`) on out-of-range fields or a too-short
tuple.  Chronological comparison of `datetime` values coincides with
comparison of the epoch-second encodings. -/

def isLeapYear (y : Int) : Bool :=
  (y % 4 == 0 && y % 100 != 0) || y % 400 == 0

def daysInMonth (y mo : Int) : Int :=
  if mo == 2 then (if isLeapYear y then 29 else 28)
  else if mo == 4 || mo == 6 || mo == 9 || mo == 11 then 30
  else 31

/-- Days from 1970-01-01 to year `y`, month `m`, day `d` in the proleptic
Gregorian calendar (civil-from-days inverse, valid for `y ≥ 1`). -/
def daysFromCivil (y m d : Int) : Int :=
  let yAdj : Int := if m ≤ 2 then y - 1 else y
  let era : Int := yAdj / 400
  let yoe : Int := yAdj - era * 400
  let mp : Int := (m + 9) % 12
  let doy : Int := (153 * mp + 2) / 5 + d - 1
  let doe : Int := yoe * 365 + yoe / 4 - yoe / 100 + doy
  era * 146097 + doe - 719468

/-- Models the Python call `datetime(*t[:6], tzinfo=UTC)` at the boundary:
slices the first six fields of the broken-down tuple, validates their
ranges, and yields the UTC timestamp in whole seconds (sub-second data is
discarded because only six fields are consumed). -/
def datetimeUTC (t : List Int) : Except String Int :=
  match t with
  | y :: mo :: d :: h :: mi :: s :: _ =>
    if 1 ≤ y ∧ y ≤ 9999 ∧ 1 ≤ mo ∧ mo ≤ 12 ∧ 1 ≤ d ∧ d ≤ daysInMonth y mo
        ∧ 0 ≤ h ∧ h ≤ 23 ∧ 0 ≤ mi ∧ mi ≤ 59 ∧ 0 ≤ s ∧ s ≤ 59 then
      Except.ok (daysFromCivil y mo d * 86400 + h * 3600 + mi * 60 + s)
    else
      Except.error "ValueError: datetime field out of range"
  | _ => Except.error "TypeError: datetime missing required arguments"

/-- `timedelta(days=days)` in seconds. -/
def timedeltaDays (days : Nat) : Int := (days : Int) * 86400

/-! ## Data model (src/models.py and feedparser entries)

A feed entry carries the attributes the pipeline consumes.  `content` is
the heterogeneous payload shape handled by `_extract_content_string`,
represented as the tagged union the spec prescribes for it: absent, plain
text, a sequence of objects each optionally exposing a `value` attribute,
or some other Python object identified by its type name. -/

inductive AttrVal where
  | str (s : String)
  | other (typeName : String)
deriving DecidableEq

/-- One element of a `content` sequence: an object whose optional `value`
attribute is either a string, some non-string value, or missing. -/
structure ContentItem where
  value : Option AttrVal
deriving DecidableEq

inductive RawContent where
  | null
  | str (s : String)
  | list (items : List ContentItem)
  | other (typeName : String)
deriving DecidableEq

structure FeedEntry where
  title : String
  link : String
  published_parsed : List Int
  summary : Option String
  content : RawContent
deriving DecidableEq

/-- The parsed feed as returned by `feedparser.parse`: an ordered entry
list plus the parse-quality (`bozo`) flag. -/
structure Feed where
  entries : List FeedEntry
  bozo : Bool
deriving DecidableEq

/-- Splits a character list at the first occurrence of `sep`, returning the
parts before and after it, or nothing when `sep` does not occur. -/
def splitAtSep (sep : List Char) : List Char → Option (List Char × List Char)
  | [] => none
  | c :: cs =>
    if headMatches sep (c :: cs) then some ([], (c :: cs).drop sep.length)
    else
      match splitAtSep sep cs with
      | some (pre, post) => some (c :: pre, post)
      | none => none

/-- Models the pydantic `AnyUrl` validator at the boundary: a syntactically
valid absolute URL needs a nonempty scheme starting with a letter and made
of scheme characters, the `://` separator, and a nonempty remainder. -/
def isAbsoluteUrl (s : String) : Bool :=
  match splitAtSep "://".data s.data with
  | some (scheme, rest) =>
    (match scheme with | c :: _ => c.isAlpha | [] => false)
      && scheme.all (fun c => c.isAlpha || c.isDigit || c == '+' || c == '-' || c == '.')
      && !rest.isEmpty
  | none => false

/-- `models.WeeklyAWSJpUpdate`. -/
structure WeeklyAWSJpUpdate where
  title : String
  url : String
  published : Int
  summary : Option String
deriving DecidableEq

/-- `models.WeeklyAWSJpDetailedUpdate` (extends `WeeklyAWSJpUpdate`). -/
structure WeeklyAWSJpDetailedUpdate where
  title : String
  url : String
  published : Int
  summary : Option String
  content : Option String
  author : Option String
  tags : List String
  published_date : Option Int
deriving DecidableEq

/-- Constructing a `WeeklyAWSJpUpdate`: pydantic validates the `url` field
and raises `ValidationError` when it is not a syntactically valid absolute
URL; the pipeline never catches that failure. -/
def mkWeeklyAWSJpUpdate (title url : String) (published : Int)
    (summary : Option String) : Except String WeeklyAWSJpUpdate :=
  if isAbsoluteUrl url then
    Except.ok ⟨title, url, published, summary⟩
  else
    Except.error "ValidationError: url is not a valid absolute URL"

/-- Constructing a `WeeklyAWSJpDetailedUpdate`, with the same pydantic URL
validation. -/
def mkWeeklyAWSJpDetailedUpdate (title url : String) (published : Int)
    (summary content author : Option String) (tags : List String)
    (published_date : Option Int) : Except String WeeklyAWSJpDetailedUpdate :=
  if isAbsoluteUrl url then
    Except.ok ⟨title, url, published, summary, content, author, tags, published_date⟩
  else
    Except.error "ValidationError: url is not a valid absolute URL"

/-! ## Content Normalizer

Modelled from the spec: `_extract_content_string` is imported from `util`
by `tests/test_util.py` and pinned there case by case, but the
implementation file that defines it is not present under src/ (src/util.py
is the divergent variant without it).  The definition below follows spec
§4.1 word for word; the diagnostic texts mirror the messages the tests
expect, with the observed Python type name embedded. -/

def _extract_content_string : RawContent → Option String × List LogEntry
  | RawContent.null => (none, [])
  | RawContent.str s => if s = "" then (none, []) else (some s, [])
  | RawContent.list [] => (none, [])
  | RawContent.list (first :: _) =>
    match first.value with
    | some (AttrVal.str s) => (some s, [])
    | some (AttrVal.other t) =>
      (none, [warnLog ("content[0].value is not a string: " ++ t)])
    | none =>
      (none, [warnLog ("content[0].value is not a string: NoneType")])
  | RawContent.other t =>
    (none, [warnLog ("unexpected content type: " ++ t)])

/-! ## Recency Lister (`fetch_weekly_jp_entries`, src/util.py lines 97-119)

The Python loop iterates feed entries in order; for each entry it converts
`published_parsed` (which may raise), appends a record when the timestamp
meets the cutoff (record construction may raise on an invalid URL, and is
not caught), and breaks once the accumulator has reached `limit`.  The
loop below additionally returns how many entries were examined
(i.e. timestamp-converted), so the short-circuit behaviour is observable. -/

def fetchWeeklyLoop (cutoff : Int) (limit : Nat) :
    List FeedEntry → List WeeklyAWSJpUpdate →
    Except String (List WeeklyAWSJpUpdate × Nat)
  | [], acc => Except.ok (acc, 0)
  | e :: rest, acc =>
    match datetimeUTC e.published_parsed with
    | Except.error m => Except.error m
    | Except.ok pub =>
      let step : Except String (List WeeklyAWSJpUpdate) :=
        if cutoff ≤ pub then
          (mkWeeklyAWSJpUpdate e.title e.link pub e.summary).map
            (fun r => acc ++ [r])
        else Except.ok acc
      match step with
      | Except.error m => Except.error m
      | Except.ok accNew =>
        if limit ≤ accNew.length then Except.ok (accNew, 1)
        else (fetchWeeklyLoop cutoff limit rest accNew).map
          (fun p => (p.1, p.2 + 1))

/-- `fetch_weekly_jp_entries(days, limit)` with the effectful inputs made
explicit: the parsed feed and the current UTC time `now` (from
`datetime.now(UTC)`).  `cutoff = now - timedelta(days=days)`. -/
def fetch_weekly_jp_entries (feed : Feed) (now : Int) (days limit : Nat) :
    Except String (List WeeklyAWSJpUpdate) :=
  (fetchWeeklyLoop (now - timedeltaDays days) limit feed.entries []).map Prod.fst

/-- Number of entries the loop examined before stopping. -/
def fetchWeeklyExamined (feed : Feed) (now : Int) (days limit : Nat) :
    Except String Nat :=
  (fetchWeeklyLoop (now - timedeltaDays days) limit feed.entries []).map Prod.snd

/-- Whether an entry passes the cutoff test (well-formed timestamp meeting
the cutoff). -/
def meetsCutoff (cutoff : Int) (e : FeedEntry) : Bool :=
  match datetimeUTC e.published_parsed with
  | Except.ok pub => cutoff ≤ pub
  | Except.error _ => false

/-- Follows the spec's words (§4.3, §8): the feed's entry sequence
restricted to the entries whose timestamp meets the cutoff, each converted
to a summary record, in feed order; entries whose conversion or
construction would fail are simply not represented. -/
def weeklyRecordsSpec (cutoff : Int) : List FeedEntry → List WeeklyAWSJpUpdate
  | [] => []
  | e :: rest =>
    match datetimeUTC e.published_parsed with
    | Except.error _ => weeklyRecordsSpec cutoff rest
    | Except.ok pub =>
      if cutoff ≤ pub then
        match mkWeeklyAWSJpUpdate e.title e.link pub e.summary with
        | Except.ok r => r :: weeklyRecordsSpec cutoff rest
        | Except.error _ => weeklyRecordsSpec cutoff rest
      else weeklyRecordsSpec cutoff rest

/-! ## Global latest picker (`fetch_latest_jp_entry`, src/util.py 122-141)

`max(feed.entries, key=...)` evaluates the key on every element in order
and keeps the first element whose key is strictly greater than the current
maximum; a key failure propagates. -/

def maxByKeyGo (key : FeedEntry → Except String Int) :
    List FeedEntry → FeedEntry → Int → Except String (FeedEntry × Int)
  | [], best, bestKey => Except.ok (best, bestKey)
  | e :: rest, best, bestKey =>
    match key e with
    | Except.error m => Except.error m
    | Except.ok k =>
      if bestKey < k then maxByKeyGo key rest e k
      else maxByKeyGo key rest best bestKey

/-- Python `max(entries, key=key)`. -/
def maxByKey (key : FeedEntry → Except String Int) :
    List FeedEntry → Except String (FeedEntry × Int)
  | [] => Except.error "ValueError: max() arg is an empty sequence"
  | e :: rest =>
    match key e with
    | Except.error m => Except.error m
    | Except.ok k => maxByKeyGo key rest e k

def entryKey (e : FeedEntry) : Except String Int :=
  datetimeUTC e.published_parsed

/-- `fetch_latest_jp_entry()` with the parsed feed made explicit.  Selects
the entry with the maximum parsed timestamp over the whole feed (no
category predicate) and builds a summary record; nothing is caught here. -/
def fetch_latest_jp_entry (feed : Feed) :
    Except String (Option WeeklyAWSJpUpdate) :=
  match feed.entries with
  | [] => Except.ok none
  | e :: rest =>
    match maxByKey entryKey (e :: rest) with
    | Except.error m => Except.error m
    | Except.ok (latest, _) =>
      match datetimeUTC latest.published_parsed with
      | Except.error m => Except.error m
      | Except.ok pub =>
        (mkWeeklyAWSJpUpdate latest.title latest.link pub latest.summary).map some

/-! ## Detail scrape consumer (`fetch_latest_jp_entry_with_details`,
src/util.py 262-300)

`fetch_article_details` is a network scrape; we model its result shape and
pass the scraper as a function parameter.  The Python code keeps the feed
timestamp, then overwrites it with the scraped `published_date` when that
key survived the None-filter, and pops `published_date` before building the
model (so the model's own `published_date` field stays at its `None`
default). -/

structure ArticleDetails where
  content : Option String
  author : Option String
  tags : List String
  published_date : Option Int
deriving DecidableEq

def fetch_latest_jp_entry_with_details (feed : Feed)
    (scrape : String → ArticleDetails) :
    Except String (Option WeeklyAWSJpDetailedUpdate) :=
  match fetch_latest_jp_entry feed with
  | Except.error m => Except.error m
  | Except.ok none => Except.ok none
  | Except.ok (some base) =>
    let details := scrape base.url
    let published : Int :=
      match details.published_date with
      | some d => d
      | none => base.published
    Except.ok (some
      { title := base.title
        url := base.url
        published := published
        summary := base.summary
        content := details.content
        author := details.author
        tags := details.tags
        published_date := none })

/-! ## Raw URL fetcher (`fetch_url_content` and
`extract_content_from_html`, src/util.py 45-94)

The HTTP client, the readability extractor and the markdown converter are
external collaborators, modelled as an explicit response value and as
function parameters.  `raise_for_status()` raises `HTTPError` (a
`RequestException`) for 4xx/5xx responses, which the surrounding handler
catches together with transport failures. -/

inductive RequestsResult where
  | response (status : Nat) (contentType : String) (body : String)
  | requestException (msg : String)
deriving DecidableEq

/-- Outcome of `readabilipy.simple_json.simple_json_from_html_string`:
extracted content HTML, an empty/falsy content field, or one of the
exceptions the source catches. -/
inductive ReadabilityResult where
  | content (html : String)
  | empty
  | exn (msg : String)
deriving DecidableEq

/-- `extract_content_from_html(html)` with the readability extractor and
`markdownify` passed as collaborators. -/
def extract_content_from_html (readability : String → ReadabilityResult)
    (markdownify : String → String) (html : String) : String × List LogEntry :=
  match readability html with
  | ReadabilityResult.empty =>
    ("<error>ページの簡略化に失敗しました</error>", [])
  | ReadabilityResult.exn m =>
    ("<error>コンテンツの抽出中にエラーが発生しました</error>",
      [errorLog ("HTMLコンテンツの抽出中にエラーが発生しました: " ++ m)])
  | ReadabilityResult.content c => (markdownify c, [])

/-- `fetch_url_content(url, max_length)` with the HTTP response and the
rendering collaborators made explicit.  Returns the rendered text truncated
to `max_length` characters, or an inline error-marker string when the
request fails, together with the log lines emitted. -/
def fetch_url_content (req : RequestsResult)
    (readability : String → ReadabilityResult)
    (markdownify : String → String)
    (url : String) (max_length : Nat) : String × List LogEntry :=
  let startLog := infoLog ("URLからコンテンツを取得しています: " ++ url)
  match req with
  | RequestsResult.requestException m =>
    ("<error>コンテンツの取得中にエラーが発生しました: " ++ m ++ "</error>",
      [startLog, errorLog ("URLからのコンテンツ取得中にエラーが発生しました: " ++ m)])
  | RequestsResult.response status contentType body =>
    if 400 ≤ status then
      let m := "HTTPError: " ++ toString status ++ " for url: " ++ url
      ("<error>コンテンツの取得中にエラーが発生しました: " ++ m ++ "</error>",
        [startLog, errorLog ("URLからのコンテンツ取得中にエラーが発生しました: " ++ m)])
    else
      let isHtml := strContains (pyLower (pySlice body 100)) "<html"
        || strContains contentType "text/html" || contentType == ""
      let rendered :=
        if isHtml then extract_content_from_html readability markdownify body
        else (body, [])
      (pySlice rendered.1 max_length, startLog :: rendered.2)

/-! ## Category Latest-Picker

Modelled from the spec: `get_latest_weekly_aws_details` and
`get_latest_generative_ai_details` are imported by src/server.py and
exercised by src/tests/test_util.py, but the file implementing them is not
present under src/ (src/util.py contains only the category-free variant
`fetch_latest_jp_entry`).  The definitions below follow spec §4.4: filter
by a title predicate, pick the maximum-timestamp entry, normalize its
content, and catch any exception raised while computing the maximum or
reading entry attributes, logging an error with stack-trace context
(`exc_info=True`, as the tests assert) and returning absence.  Per spec §7
and §9 the URL-validation failure of record construction is not swallowed
by that boundary. -/

def selectLatest (entries : List FeedEntry) : Except String (FeedEntry × Int) :=
  match maxByKey entryKey entries with
  | Except.error m => Except.error m
  | Except.ok (best, _) =>
    match datetimeUTC best.published_parsed with
    | Except.error m => Except.error m
    | Except.ok pub => Except.ok (best, pub)

/-- Modelled from the spec: the shared category latest-picker algorithm of
spec §4.4 (the body of the missing `get_latest_weekly_aws_details` /
`get_latest_generative_ai_details`), parametrised by the category predicate
and by the category-specific not-found and error texts. -/
def latest_in_category (pred : String → Bool)
    (notFoundMsg errPrefix : String) (feed : Feed) :
    Except String (Option WeeklyAWSJpDetailedUpdate × List LogEntry) :=
  match feed.entries with
  | [] => Except.ok (none, [])
  | _ :: _ =>
    let filtered := feed.entries.filter (fun e => pred e.title)
    match filtered with
    | [] => Except.ok (none, [infoLog notFoundMsg])
    | _ :: _ =>
      match selectLatest filtered with
      | Except.error ex =>
        Except.ok (none, [⟨LogLevel.error, errPrefix ++ ex, true⟩])
      | Except.ok (best, pub) =>
        let normalized := _extract_content_string best.content
        match mkWeeklyAWSJpDetailedUpdate best.title best.link pub
            best.summary normalized.1 none [] none with
        | Except.error m => Except.error m
        | Except.ok r => Except.ok (some r, normalized.2)

/-- The spec's category markers (§4.4): the plain Weekly-AWS predicate
requires the Weekly-AWS marker and excludes the GenAI marker. -/
def weeklyAWSMarker : String := "Weekly-AWS"

def genAIMarker : String := "Weekly-GenAI"

def weekly_aws_title_pred (title : String) : Bool :=
  strContains title weeklyAWSMarker && !strContains title genAIMarker

def gen_ai_title_pred (title : String) : Bool :=
  strContains title genAIMarker

/-- Modelled from the spec: `get_latest_weekly_aws_details` (missing from
src/), instantiating the shared algorithm with the plain Weekly-AWS
predicate and the message texts the tests assert. -/
def get_latest_weekly_aws_details (feed : Feed) :
    Except String (Option WeeklyAWSJpDetailedUpdate × List LogEntry) :=
  latest_in_category weekly_aws_title_pred
    "最新の「週刊AWS」記事が見つかりませんでした。"
    "最新の「週刊AWS」記事詳細の処理中にエラー: " feed

/-- Modelled from the spec: `get_latest_generative_ai_details` (missing
from src/), instantiating the shared algorithm with the GenAI predicate. -/
def get_latest_generative_ai_details (feed : Feed) :
    Except String (Option WeeklyAWSJpDetailedUpdate × List LogEntry) :=
  latest_in_category gen_ai_title_pred
    "最新の「週刊生成AI with AWS」記事が見つかりませんでした。"
    "最新の「週刊生成AI with AWS」記事詳細の処理中にエラー: " feed

/-! ## Helper lemmas -/

lemma maxByKeyGo_ok (key : FeedEntry → Except String Int) :
    ∀ (l : List FeedEntry) (best : FeedEntry) (bk : Int) (r : FeedEntry) (rk : Int),
    maxByKeyGo key l best bk = Except.ok (r, rk) →
    bk ≤ rk ∧ ((r = best ∧ rk = bk) ∨ (r ∈ l ∧ key r = Except.ok rk)) ∧
      ∀ e ∈ l, ∀ k, key e = Except.ok k → k ≤ rk := by
  intro l
  induction l with
  | nil =>
    intro best bk r rk h
    simp only [maxByKeyGo] at h
    obtain ⟨rfl, rfl⟩ : best = r ∧ bk = rk := by simpa using h
    refine ⟨le_refl _, Or.inl ⟨rfl, rfl⟩, ?_⟩
    intro e he
    simp at he
  | cons e rest ih =>
    intro best bk r rk h
    cases hk : key e with
    | error m =>
      simp only [maxByKeyGo, hk] at h
      exact Except.noConfusion h
    | ok k =>
      simp only [maxByKeyGo, hk] at h
      by_cases hlt : bk < k
      · rw [if_pos hlt] at h
        obtain ⟨hle, halt, hall⟩ := ih e k r rk h
        refine ⟨le_trans (le_of_lt hlt) hle, ?_, ?_⟩
        · rcases halt with ⟨h1, h2⟩ | ⟨h1, h2⟩
          · subst h1; subst h2
            exact Or.inr ⟨List.mem_cons_self _ _, hk⟩
          · exact Or.inr ⟨List.mem_cons_of_mem _ h1, h2⟩
        · intro x hx kx hkx
          rcases List.mem_cons.mp hx with hx | hx
          · subst hx
            rw [hk] at hkx
            obtain rfl : k = kx := by simpa using hkx
            exact hle
          · exact hall x hx kx hkx
      · rw [if_neg hlt] at h
        obtain ⟨hle, halt, hall⟩ := ih best bk r rk h
        refine ⟨hle, ?_, ?_⟩
        · rcases halt with ⟨h1, h2⟩ | ⟨h1, h2⟩
          · exact Or.inl ⟨h1, h2⟩
          · exact Or.inr ⟨List.mem_cons_of_mem _ h1, h2⟩
        · intro x hx kx hkx
          rcases List.mem_cons.mp hx with hx | hx
          · subst hx
            rw [hk] at hkx
            obtain rfl : k = kx := by simpa using hkx
            exact le_trans (le_of_not_lt hlt) hle
          · exact hall x hx kx hkx

lemma maxByKey_ok (key : FeedEntry → Except String Int)
    (l : List FeedEntry) (r : FeedEntry) (rk : Int)
    (h : maxByKey key l = Except.ok (r, rk)) :
    r ∈ l ∧ key r = Except.ok rk ∧
      ∀ e ∈ l, ∀ k, key e = Except.ok k → k ≤ rk := by
  cases l with
  | nil => simp [maxByKey] at h
  | cons e rest =>
    cases hk : key e with
    | error m =>
      simp only [maxByKey, hk] at h
      exact Except.noConfusion h
    | ok k =>
      simp only [maxByKey, hk] at h
      obtain ⟨hle, halt, hall⟩ := maxByKeyGo_ok key rest e k r rk h
      refine ⟨?_, ?_, ?_⟩
      · rcases halt with ⟨h1, _⟩ | ⟨h1, _⟩
        · subst h1; exact List.mem_cons_self _ _
        · exact List.mem_cons_of_mem _ h1
      · rcases halt with ⟨h1, h2⟩ | ⟨_, h2⟩
        · subst h1; subst h2; exact hk
        · exact h2
      · intro x hx kx hkx
        rcases List.mem_cons.mp hx with hx | hx
        · subst hx
          rw [hk] at hkx
          obtain rfl : k = kx := by simpa using hkx
          exact hle
        · exact hall x hx kx hkx

lemma maxByKeyGo_total (key : FeedEntry → Except String Int) :
    ∀ (l : List FeedEntry) (best : FeedEntry) (bk : Int),
    (∀ e ∈ l, (key e).isOk = true) →
    ∃ r rk, maxByKeyGo key l best bk = Except.ok (r, rk) := by
  intro l
  induction l with
  | nil => intro best bk _; exact ⟨best, bk, rfl⟩
  | cons e rest ih =>
    intro best bk hall
    have hk : (key e).isOk = true := hall e (List.mem_cons_self _ _)
    cases hke : key e with
    | error m => rw [hke] at hk; simp [Except.isOk, Except.toBool] at hk
    | ok k =>
      have hrest : ∀ x ∈ rest, (key x).isOk = true :=
        fun x hx => hall x (List.mem_cons_of_mem _ hx)
      simp only [maxByKeyGo, hke]
      by_cases hlt : bk < k
      · rw [if_pos hlt]; exact ih e k hrest
      · rw [if_neg hlt]; exact ih best bk hrest

lemma maxByKey_total (key : FeedEntry → Except String Int)
    (l : List FeedEntry) (hne : l ≠ [])
    (hall : ∀ e ∈ l, (key e).isOk = true) :
    ∃ r rk, maxByKey key l = Except.ok (r, rk) := by
  cases l with
  | nil => exact absurd rfl hne
  | cons e rest =>
    have hk : (key e).isOk = true := hall e (List.mem_cons_self _ _)
    cases hke : key e with
    | error m => rw [hke] at hk; simp [Except.isOk, Except.toBool] at hk
    | ok k =>
      simp only [maxByKey, hke]
      exact maxByKeyGo_total key rest e k
        (fun x hx => hall x (List.mem_cons_of_mem _ hx))

lemma mkWeeklyAWSJpUpdate_ok (t u : String) (p : Int) (s : Option String)
    (r : WeeklyAWSJpUpdate) (h : mkWeeklyAWSJpUpdate t u p s = Except.ok r) :
    r = ⟨t, u, p, s⟩ ∧ isAbsoluteUrl u = true := by
  unfold mkWeeklyAWSJpUpdate at h
  split at h
  · next hv =>
    obtain rfl : (⟨t, u, p, s⟩ : WeeklyAWSJpUpdate) = r := by simpa using h
    exact ⟨rfl, hv⟩
  · exact Except.noConfusion h

lemma fetchWeeklyLoop_ok_spec (cutoff : Int) (limit : Nat) :
    ∀ (entries : List FeedEntry) (acc res : List WeeklyAWSJpUpdate) (n : Nat),
    acc.length < limit →
    fetchWeeklyLoop cutoff limit entries acc = Except.ok (res, n) →
    res = acc ++ (weeklyRecordsSpec cutoff entries).take (limit - acc.length) ∧
      res.length ≤ limit := by
  intro entries
  induction entries with
  | nil =>
    intro acc res n hlt h
    simp only [fetchWeeklyLoop] at h
    obtain ⟨rfl, rfl⟩ : acc = res ∧ 0 = n := by simpa using h
    exact ⟨by simp [weeklyRecordsSpec], le_of_lt hlt⟩
  | cons e rest ih =>
    intro acc res n hlt h
    cases hdt : datetimeUTC e.published_parsed with
    | error m =>
      simp only [fetchWeeklyLoop, hdt] at h
      exact Except.noConfusion h
    | ok pub =>
      simp only [fetchWeeklyLoop, hdt] at h
      by_cases hcut : cutoff ≤ pub
      · rw [if_pos hcut] at h
        cases hmk : mkWeeklyAWSJpUpdate e.title e.link pub e.summary with
        | error m =>
          simp only [hmk, Except.map] at h
          exact Except.noConfusion h
        | ok r =>
          simp only [hmk, Except.map] at h
          by_cases hstop : limit ≤ (acc ++ [r]).length
          · rw [if_pos hstop] at h
            obtain ⟨rfl, rfl⟩ : acc ++ [r] = res ∧ 1 = n := by simpa using h
            have hlen : (acc ++ [r]).length = acc.length + 1 := by simp
            have harith : limit - acc.length = 1 := by
              rw [hlen] at hstop; omega
            simp only [weeklyRecordsSpec, hdt, if_pos hcut, hmk, harith]
            refine ⟨by simp, ?_⟩
            rw [hlen]; omega
          · rw [if_neg hstop] at h
            cases hrec : fetchWeeklyLoop cutoff limit rest (acc ++ [r]) with
            | error m =>
              simp only [hrec, Except.map] at h
              exact Except.noConfusion h
            | ok p =>
              obtain ⟨res2, n2⟩ := p
              simp only [hrec, Except.map] at h
              obtain ⟨rfl, rfl⟩ : res2 = res ∧ n2 + 1 = n := by simpa using h
              have hlen : (acc ++ [r]).length = acc.length + 1 := by simp
              have hlt2 : (acc ++ [r]).length < limit := by
                rw [hlen]; rw [hlen] at hstop; omega
              obtain ⟨hres, hlenle⟩ := ih (acc ++ [r]) res2 n2 hlt2 hrec
              refine ⟨?_, hlenle⟩
              rw [hres, hlen]
              have harith : limit - acc.length = (limit - (acc.length + 1)) + 1 := by
                omega
              simp only [weeklyRecordsSpec, hdt, if_pos hcut, hmk, harith,
                List.take_succ_cons, List.append_assoc, List.singleton_append]
      · rw [if_neg hcut] at h
        simp only at h
        have hstop : ¬ (limit ≤ acc.length) := not_le.mpr hlt
        rw [if_neg hstop] at h
        cases hrec : fetchWeeklyLoop cutoff limit rest acc with
        | error m =>
          simp only [hrec, Except.map] at h
          exact Except.noConfusion h
        | ok p =>
          obtain ⟨res2, n2⟩ := p
          simp only [hrec, Except.map] at h
          obtain ⟨rfl, rfl⟩ : res2 = res ∧ n2 + 1 = n := by simpa using h
          obtain ⟨hres, hlenle⟩ := ih acc res2 n2 hlt hrec
          refine ⟨?_, hlenle⟩
          simpa only [weeklyRecordsSpec, hdt, if_neg hcut] using hres

lemma fetchWeeklyLoop_examined (cutoff : Int) (limit : Nat) :
    ∀ (entries : List FeedEntry) (acc res : List WeeklyAWSJpUpdate) (n : Nat),
    acc.length < limit →
    fetchWeeklyLoop cutoff limit entries acc = Except.ok (res, n) →
    ∀ m : Nat, limit ≤ acc.length + (entries.take m).countP (meetsCutoff cutoff) →
      n ≤ m := by
  intro entries
  induction entries with
  | nil =>
    intro acc res n hlt h m _
    simp only [fetchWeeklyLoop] at h
    obtain ⟨-, rfl⟩ : acc = res ∧ 0 = n := by simpa using h
    exact Nat.zero_le m
  | cons e rest ih =>
    intro acc res n hlt h m hm
    cases hdt : datetimeUTC e.published_parsed with
    | error msg =>
      simp only [fetchWeeklyLoop, hdt] at h
      exact Except.noConfusion h
    | ok pub =>
      simp only [fetchWeeklyLoop, hdt] at h
      by_cases hcut : cutoff ≤ pub
      · rw [if_pos hcut] at h
        cases hmk : mkWeeklyAWSJpUpdate e.title e.link pub e.summary with
        | error msg =>
          simp only [hmk, Except.map] at h
          exact Except.noConfusion h
        | ok r =>
          simp only [hmk, Except.map] at h
          have hpos : meetsCutoff cutoff e = true := by
            simp [meetsCutoff, hdt, hcut]
          by_cases hstop : limit ≤ (acc ++ [r]).length
          · rw [if_pos hstop] at h
            obtain ⟨-, rfl⟩ : acc ++ [r] = res ∧ 1 = n := by simpa using h
            cases m with
            | zero =>
              simp only [List.take_zero, List.countP_nil] at hm
              omega
            | succ m2 => omega
          · rw [if_neg hstop] at h
            cases hrec : fetchWeeklyLoop cutoff limit rest (acc ++ [r]) with
            | error msg =>
              simp only [hrec, Except.map] at h
              exact Except.noConfusion h
            | ok p =>
              obtain ⟨res2, n2⟩ := p
              simp only [hrec, Except.map] at h
              obtain ⟨-, rfl⟩ : res2 = res ∧ n2 + 1 = n := by simpa using h
              have hlt2 : (acc ++ [r]).length < limit := by
                simp only [List.length_append, List.length_singleton]
                simp only [List.length_append, List.length_singleton] at hstop
                omega
              cases m with
              | zero =>
                simp only [List.take_zero, List.countP_nil] at hm
                omega
              | succ m2 =>
                have hcount : ((e :: rest).take (m2 + 1)).countP (meetsCutoff cutoff)
                    = (rest.take m2).countP (meetsCutoff cutoff) + 1 := by
                  simp [List.take_succ_cons, List.countP_cons, hpos]
                rw [hcount] at hm
                have : n2 ≤ m2 := by
                  refine ih (acc ++ [r]) res2 n2 hlt2 hrec m2 ?_
                  simp only [List.length_append, List.length_singleton]
                  omega
                omega
      · rw [if_neg hcut] at h
        simp only at h
        rw [if_neg (not_le.mpr hlt)] at h
        cases hrec : fetchWeeklyLoop cutoff limit rest acc with
        | error msg =>
          simp only [hrec, Except.map] at h
          exact Except.noConfusion h
        | ok p =>
          obtain ⟨res2, n2⟩ := p
          simp only [hrec, Except.map] at h
          obtain ⟨-, rfl⟩ : res2 = res ∧ n2 + 1 = n := by simpa using h
          have hneg : meetsCutoff cutoff e = false := by
            simp [meetsCutoff, hdt, hcut]
          cases m with
          | zero =>
            simp only [List.take_zero, List.countP_nil] at hm
            omega
          | succ m2 =>
            have hcount : ((e :: rest).take (m2 + 1)).countP (meetsCutoff cutoff)
                = (rest.take m2).countP (meetsCutoff cutoff) := by
              simp [List.take_succ_cons, List.countP_cons, hneg]
            rw [hcount] at hm
            have : n2 ≤ m2 := ih acc res2 n2 hlt hrec m2 hm
            omega

lemma weeklyRecordsSpec_mem (cutoff : Int) :
    ∀ entries, ∀ r ∈ weeklyRecordsSpec cutoff entries,
      cutoff ≤ r.published ∧ isAbsoluteUrl r.url = true := by
  intro entries
  induction entries with
  | nil => intro r hr; simp [weeklyRecordsSpec] at hr
  | cons e rest ih =>
    intro r hr
    cases hdt : datetimeUTC e.published_parsed with
    | error msg =>
      simp only [weeklyRecordsSpec, hdt] at hr
      exact ih r hr
    | ok pub =>
      simp only [weeklyRecordsSpec, hdt] at hr
      by_cases hcut : cutoff ≤ pub
      · rw [if_pos hcut] at hr
        cases hmk : mkWeeklyAWSJpUpdate e.title e.link pub e.summary with
        | error msg =>
          rw [hmk] at hr
          exact ih r hr
        | ok r0 =>
          rw [hmk] at hr
          rcases List.mem_cons.mp hr with hr | hr
          · subst hr
            obtain ⟨hfields, hurl⟩ :=
              mkWeeklyAWSJpUpdate_ok e.title e.link pub e.summary r hmk
            constructor
            · rw [hfields]; exact hcut
            · rw [hfields]; exact hurl
          · exact ih r hr
      · rw [if_neg hcut] at hr
        exact ih r hr

lemma fetchWeeklyLoop_url (cutoff : Int) (limit : Nat) :
    ∀ (entries : List FeedEntry) (acc res : List WeeklyAWSJpUpdate) (n : Nat),
    fetchWeeklyLoop cutoff limit entries acc = Except.ok (res, n) →
    ∀ r ∈ res, r ∈ acc ∨ isAbsoluteUrl r.url = true := by
  intro entries
  induction entries with
  | nil =>
    intro acc res n h r hr
    simp only [fetchWeeklyLoop] at h
    obtain ⟨rfl, -⟩ : acc = res ∧ 0 = n := by simpa using h
    exact Or.inl hr
  | cons e rest ih =>
    intro acc res n h r hr
    cases hdt : datetimeUTC e.published_parsed with
    | error msg =>
      simp only [fetchWeeklyLoop, hdt] at h
      exact Except.noConfusion h
    | ok pub =>
      simp only [fetchWeeklyLoop, hdt] at h
      by_cases hcut : cutoff ≤ pub
      · rw [if_pos hcut] at h
        cases hmk : mkWeeklyAWSJpUpdate e.title e.link pub e.summary with
        | error msg =>
          simp only [hmk, Except.map] at h
          exact Except.noConfusion h
        | ok r0 =>
          simp only [hmk, Except.map] at h
          obtain ⟨-, hurl0⟩ :=
            mkWeeklyAWSJpUpdate_ok e.title e.link pub e.summary r0 hmk
          have hurl : isAbsoluteUrl r0.url = true := by
            obtain ⟨hfields, h2⟩ :=
              mkWeeklyAWSJpUpdate_ok e.title e.link pub e.summary r0 hmk
            rw [hfields]; exact h2
          by_cases hstop : limit ≤ (acc ++ [r0]).length
          · rw [if_pos hstop] at h
            obtain ⟨rfl, -⟩ : acc ++ [r0] = res ∧ 1 = n := by simpa using h
            rcases List.mem_append.mp hr with hr | hr
            · exact Or.inl hr
            · obtain rfl : r = r0 := by simpa using hr
              exact Or.inr hurl
          · rw [if_neg hstop] at h
            cases hrec : fetchWeeklyLoop cutoff limit rest (acc ++ [r0]) with
            | error msg =>
              simp only [hrec, Except.map] at h
              exact Except.noConfusion h
            | ok p =>
              obtain ⟨res2, n2⟩ := p
              simp only [hrec, Except.map] at h
              obtain ⟨rfl, -⟩ : res2 = res ∧ n2 + 1 = n := by simpa using h
              rcases ih (acc ++ [r0]) res2 n2 hrec r hr with hin | hok
              · rcases List.mem_append.mp hin with hin | hin
                · exact Or.inl hin
                · obtain rfl : r = r0 := by simpa using hin
                  exact Or.inr hurl
              · exact Or.inr hok
      · rw [if_neg hcut] at h
        simp only at h
        by_cases hstop : limit ≤ acc.length
        · rw [if_pos hstop] at h
          obtain ⟨rfl, -⟩ : acc = res ∧ 1 = n := by simpa using h
          exact Or.inl hr
        · rw [if_neg hstop] at h
          cases hrec : fetchWeeklyLoop cutoff limit rest acc with
          | error msg =>
            simp only [hrec, Except.map] at h
            exact Except.noConfusion h
          | ok p =>
            obtain ⟨res2, n2⟩ := p
            simp only [hrec, Except.map] at h
            obtain ⟨rfl, -⟩ : res2 = res ∧ n2 + 1 = n := by simpa using h
            exact ih acc res2 n2 hrec r hr

/-! ## Concrete feeds used for witnesses and counterexamples

The three-entry scenario of spec §8: entries dated one, five and ten days
before the fixed reference time 2024-04-02 12:00:00 UTC, the middle one in
the GenAI category. -/

def entryWeekly1 : FeedEntry :=
  ⟨"Weekly-AWS - 2024/04/01", "http://example.com/weekly1",
    [2024, 4, 1, 12, 0, 0], some "s1", RawContent.list [⟨some (AttrVal.str "c1")⟩]⟩

def entryGenAI : FeedEntry :=
  ⟨"Weekly-GenAI-with-AWS - 2024/03/25", "http://example.com/genai1",
    [2024, 3, 28, 12, 0, 0], some "s2", RawContent.list [⟨some (AttrVal.str "c2")⟩]⟩

def entryWeekly2 : FeedEntry :=
  ⟨"Weekly-AWS - 2024/03/18", "http://example.com/weekly2",
    [2024, 3, 23, 12, 0, 0], some "s3", RawContent.null⟩

def scenarioFeed : Feed := ⟨[entryWeekly1, entryGenAI, entryWeekly2], false⟩

/-- 2024-04-02 12:00:00 UTC in epoch seconds. -/
def scenarioNow : Int := 1712059200

def recWeekly1 : WeeklyAWSJpUpdate :=
  ⟨"Weekly-AWS - 2024/04/01", "http://example.com/weekly1", 1711972800, some "s1"⟩

def recGenAI : WeeklyAWSJpUpdate :=
  ⟨"Weekly-GenAI-with-AWS - 2024/03/25", "http://example.com/genai1", 1711627200, some "s2"⟩

/-- A feed whose single (recent, well-timestamped) entry has a link that is
not a syntactically valid absolute URL. -/
def badLinkEntry : FeedEntry :=
  ⟨"Weekly-AWS bad link", "not a url", [2024, 4, 1, 10, 0, 0], none, RawContent.null⟩

def badLinkFeed : Feed := ⟨[badLinkEntry], false⟩

/-! ## Claim C2 -/

/-- C2 (amended to `limit ≥ 1`): for every feed and every `days` and every
`limit ≥ 1`, when `fetch_weekly_jp_entries` succeeds it returns at most
`limit` records, each with a published timestamp (converted from the
entry's broken-down time, truncated to whole seconds, UTC, inside
`datetimeUTC`) at or after `now - days`; and iteration stops as soon as
`limit` records have been emitted: whenever the first `m` feed entries
already contain `limit` cutoff-passing entries, at most `m` entries are
ever timestamp-checked. -/
theorem c2_list_recent_cap_cutoff_shortcircuit
    (feed : Feed) (now : Int) (days limit : Nat)
    (res : List WeeklyAWSJpUpdate) (n : Nat)
    (hlim : 1 ≤ limit)
    (h : fetchWeeklyLoop (now - timedeltaDays days) limit feed.entries []
      = Except.ok (res, n)) :
    fetch_weekly_jp_entries feed now days limit = Except.ok res ∧
    fetchWeeklyExamined feed now days limit = Except.ok n ∧
    res.length ≤ limit ∧
    (∀ r ∈ res, now - timedeltaDays days ≤ r.published) ∧
    (∀ m : Nat,
      limit ≤ (feed.entries.take m).countP (meetsCutoff (now - timedeltaDays days)) →
      n ≤ m) := by
  have hlt : ([] : List WeeklyAWSJpUpdate).length < limit := by simpa using hlim
  obtain ⟨hres, hlen⟩ := fetchWeeklyLoop_ok_spec _ _ _ _ _ _ hlt h
  refine ⟨?_, ?_, hlen, ?_, ?_⟩
  · simp [fetch_weekly_jp_entries, h, Except.map]
  · simp [fetchWeeklyExamined, h, Except.map]
  · intro r hr
    have hmem : r ∈ weeklyRecordsSpec (now - timedeltaDays days) feed.entries := by
      rw [hres] at hr
      simp only [List.nil_append] at hr
      exact List.mem_of_mem_take hr
    exact (weeklyRecordsSpec_mem _ _ r hmem).1
  · intro m hm
    exact fetchWeeklyLoop_examined _ _ _ _ _ _ hlt h m (by simpa using hm)

/-- C2 witness: the scenario feed with `days = 7`, `limit = 20` yields the
two recent records (the ten-day-old entry is excluded), examined all three
entries, and satisfies all bounds. -/
theorem c2_list_recent_cap_cutoff_shortcircuit_witness :
    fetch_weekly_jp_entries scenarioFeed scenarioNow 7 20
      = Except.ok [recWeekly1, recGenAI] ∧
    fetchWeeklyExamined scenarioFeed scenarioNow 7 20 = Except.ok 3 ∧
    ([recWeekly1, recGenAI] : List WeeklyAWSJpUpdate).length ≤ 20 ∧
    (∀ r ∈ [recWeekly1, recGenAI], scenarioNow - timedeltaDays 7 ≤ r.published) ∧
    (∀ m : Nat,
      20 ≤ (scenarioFeed.entries.take m).countP
        (meetsCutoff (scenarioNow - timedeltaDays 7)) →
      3 ≤ m) :=
  c2_list_recent_cap_cutoff_shortcircuit scenarioFeed scenarioNow 7 20
    [recWeekly1, recGenAI] 3 (by decide) (by rfl)

/-- C2 counterexample: with `limit = 0` the claim fails on the code: the
loop appends before checking the cap, so one record is returned (more than
`limit`), and the first entry is timestamp-checked even though zero records
were ever needed. -/
theorem c2_limit_zero_counterexample :
    (fetch_weekly_jp_entries scenarioFeed scenarioNow 7 0).toOption.map List.length
      = some 1 ∧
    fetchWeeklyExamined scenarioFeed scenarioNow 7 0 = Except.ok 1 :=
  ⟨rfl, rfl⟩

/-! ## Claim C7 -/

/-- C7 (amended to `limit ≥ 1`): whenever `fetch_weekly_jp_entries`
succeeds with `limit ≥ 1`, its result equals the feed's entry sequence
restricted to the entries whose timestamp meets the cutoff, cut off at
`limit`, in the feed's own order (no re-sorting). -/
theorem c7_list_recent_preserves_feed_order
    (feed : Feed) (now : Int) (days limit : Nat) (res : List WeeklyAWSJpUpdate)
    (hlim : 1 ≤ limit)
    (h : fetch_weekly_jp_entries feed now days limit = Except.ok res) :
    res = (weeklyRecordsSpec (now - timedeltaDays days) feed.entries).take limit := by
  unfold fetch_weekly_jp_entries at h
  cases hl : fetchWeeklyLoop (now - timedeltaDays days) limit feed.entries [] with
  | error m =>
    rw [hl] at h
    simp [Except.map] at h
  | ok p =>
    obtain ⟨res2, n⟩ := p
    rw [hl] at h
    obtain rfl : res2 = res := by simpa [Except.map] using h
    have hlt : ([] : List WeeklyAWSJpUpdate).length < limit := by simpa using hlim
    obtain ⟨hres, -⟩ := fetchWeeklyLoop_ok_spec _ _ _ _ _ _ hlt hl
    simpa using hres

/-- C7 witness: on the scenario feed the result is exactly the
cutoff-filtered feed sequence (truncated at 20), in feed order. -/
theorem c7_list_recent_preserves_feed_order_witness :
    ([recWeekly1, recGenAI] : List WeeklyAWSJpUpdate)
      = (weeklyRecordsSpec (scenarioNow - timedeltaDays 7) scenarioFeed.entries).take 20 :=
  c7_list_recent_preserves_feed_order scenarioFeed scenarioNow 7 20
    [recWeekly1, recGenAI] (by decide) (by rfl)

/-- C7 counterexample: at `limit = 0` the returned sequence is not the
cutoff-restricted sequence cut off at the limit (which is empty): one
record is returned. -/
theorem c7_limit_zero_counterexample :
    fetch_weekly_jp_entries scenarioFeed scenarioNow 7 0 = Except.ok [recWeekly1] ∧
    (weeklyRecordsSpec (scenarioNow - timedeltaDays 7) scenarioFeed.entries).take 0
      = [] :=
  ⟨rfl, rfl⟩

/-! ## Claim C8 -/

/-- C8: an entry link that is not a syntactically valid absolute URL makes
record construction fail (for both record models); the failure propagates
out of `fetch_weekly_jp_entries` uncaught; and every successfully
constructed record carries a syntactically valid absolute URL. -/
theorem c8_invalid_url_fails_construction :
    (∀ (t u : String) (p : Int) (s : Option String), isAbsoluteUrl u = false →
      mkWeeklyAWSJpUpdate t u p s
        = Except.error "ValidationError: url is not a valid absolute URL") ∧
    (∀ (t u : String) (p : Int) (s c a : Option String) (tg : List String)
        (pd : Option Int), isAbsoluteUrl u = false →
      mkWeeklyAWSJpDetailedUpdate t u p s c a tg pd
        = Except.error "ValidationError: url is not a valid absolute URL") ∧
    (∀ (t u : String) (p : Int) (s : Option String) (r : WeeklyAWSJpUpdate),
      mkWeeklyAWSJpUpdate t u p s = Except.ok r → isAbsoluteUrl r.url = true) ∧
    (∀ (feed : Feed) (now : Int) (days limit : Nat) (res : List WeeklyAWSJpUpdate),
      fetch_weekly_jp_entries feed now days limit = Except.ok res →
      ∀ r ∈ res, isAbsoluteUrl r.url = true) ∧
    (∀ (feed : Feed) (now : Int) (days limit : Nat) (e : FeedEntry)
        (rest : List FeedEntry) (p : Int),
      feed.entries = e :: rest → datetimeUTC e.published_parsed = Except.ok p →
      now - timedeltaDays days ≤ p → isAbsoluteUrl e.link = false →
      fetch_weekly_jp_entries feed now days limit
        = Except.error "ValidationError: url is not a valid absolute URL") := by
  refine ⟨?_, ?_, ?_, ?_, ?_⟩
  · intro t u p s hu
    simp [mkWeeklyAWSJpUpdate, hu]
  · intro t u p s c a tg pd hu
    simp [mkWeeklyAWSJpDetailedUpdate, hu]
  · intro t u p s r h
    obtain ⟨hfields, hurl⟩ := mkWeeklyAWSJpUpdate_ok t u p s r h
    rw [hfields]
    exact hurl
  · intro feed now days limit res h r hr
    unfold fetch_weekly_jp_entries at h
    cases hl : fetchWeeklyLoop (now - timedeltaDays days) limit feed.entries [] with
    | error m =>
      rw [hl] at h
      simp [Except.map] at h
    | ok p =>
      obtain ⟨res2, n⟩ := p
      rw [hl] at h
      obtain rfl : res2 = res := by simpa [Except.map] using h
      rcases fetchWeeklyLoop_url _ _ _ _ _ _ hl r hr with hin | hok
      · simp at hin
      · exact hok
  · intro feed now days limit e rest p hfe hdt hcut hurl
    unfold fetch_weekly_jp_entries
    rw [hfe]
    simp only [fetchWeeklyLoop, hdt, if_pos hcut]
    simp [mkWeeklyAWSJpUpdate, hurl, Except.map]

/-- C8 witness: concrete invalid-URL constructions fail with the
validation error; the scenario run's records all carry valid URLs; and the
bad-link feed makes the lister propagate the validation failure. -/
theorem c8_invalid_url_fails_construction_witness :
    mkWeeklyAWSJpUpdate "Weekly-AWS bad link" "not a url" 0 none
      = Except.error "ValidationError: url is not a valid absolute URL" ∧
    mkWeeklyAWSJpDetailedUpdate "Weekly-AWS bad link" "not a url" 0 none none none [] none
      = Except.error "ValidationError: url is not a valid absolute URL" ∧
    isAbsoluteUrl recWeekly1.url = true ∧
    (∀ r ∈ [recWeekly1, recGenAI], isAbsoluteUrl r.url = true) ∧
    fetch_weekly_jp_entries badLinkFeed scenarioNow 7 20
      = Except.error "ValidationError: url is not a valid absolute URL" :=
  ⟨c8_invalid_url_fails_construction.1 "Weekly-AWS bad link" "not a url" 0 none (by decide),
   c8_invalid_url_fails_construction.2.1 "Weekly-AWS bad link" "not a url" 0
     none none none [] none (by decide),
   c8_invalid_url_fails_construction.2.2.1 recWeekly1.title recWeekly1.url
     recWeekly1.published recWeekly1.summary recWeekly1 (by rfl),
   c8_invalid_url_fails_construction.2.2.2.1 scenarioFeed scenarioNow 7 20
     [recWeekly1, recGenAI] (by rfl),
   c8_invalid_url_fails_construction.2.2.2.2 badLinkFeed scenarioNow 7 20
     badLinkEntry [] 1711965600 rfl (by rfl) (by decide) (by decide)⟩

/-! ## Claims C1 and C3: the category latest-picker -/

/-- Unfolds `latest_in_category` when the category filter is nonempty. -/
lemma latest_in_category_eq (pred : String → Bool) (notFoundMsg errPrefix : String)
    (feed : Feed) (f : FeedEntry) (fs : List FeedEntry)
    (hfil : feed.entries.filter (fun e => pred e.title) = f :: fs) :
    latest_in_category pred notFoundMsg errPrefix feed =
      match selectLatest (f :: fs) with
      | Except.error ex => Except.ok (none, [⟨LogLevel.error, errPrefix ++ ex, true⟩])
      | Except.ok (best, pub) =>
        match mkWeeklyAWSJpDetailedUpdate best.title best.link pub best.summary
            (_extract_content_string best.content).1 none [] none with
        | Except.error m => Except.error m
        | Except.ok r => Except.ok (some r, (_extract_content_string best.content).2) := by
  cases hE : feed.entries with
  | nil => rw [hE] at hfil; simp at hfil
  | cons E ES =>
    rw [hE] at hfil
    simp only [latest_in_category, hE, hfil]

/-- C1: for every feed and every category predicate, when the filtered set
is nonempty and its entries are well-formed, `latest_in_category` returns
the record of an entry satisfying the predicate whose parsed publication
timestamp is maximal among all predicate-satisfying entries — not the
global latest entry of the feed. -/
theorem c1_latest_in_category_is_category_max
    (pred : String → Bool) (notFoundMsg errPrefix : String) (feed : Feed)
    (hne : feed.entries.filter (fun e => pred e.title) ≠ [])
    (hwf : ∀ e ∈ feed.entries.filter (fun e => pred e.title),
      (datetimeUTC e.published_parsed).isOk = true)
    (hurl : ∀ e ∈ feed.entries.filter (fun e => pred e.title),
      isAbsoluteUrl e.link = true) :
    ∃ best pub logs,
      best ∈ feed.entries.filter (fun e => pred e.title) ∧
      datetimeUTC best.published_parsed = Except.ok pub ∧
      latest_in_category pred notFoundMsg errPrefix feed = Except.ok
        (some ⟨best.title, best.link, pub, best.summary,
          (_extract_content_string best.content).1, none, [], none⟩, logs) ∧
      (∀ e ∈ feed.entries.filter (fun e => pred e.title),
        ∀ p, datetimeUTC e.published_parsed = Except.ok p → p ≤ pub) := by
  obtain ⟨best, rk, hmax⟩ := maxByKey_total entryKey _ hne hwf
  obtain ⟨hmem, hkey, hall⟩ := maxByKey_ok entryKey _ best rk hmax
  have hkey2 : datetimeUTC best.published_parsed = Except.ok rk := hkey
  have hsel : selectLatest (feed.entries.filter (fun e => pred e.title))
      = Except.ok (best, rk) := by
    simp only [selectLatest, hmax, hkey2]
  obtain ⟨f, fs, hfil⟩ :
      ∃ f fs, feed.entries.filter (fun e => pred e.title) = f :: fs := by
    cases hc : feed.entries.filter (fun e => pred e.title) with
    | nil => exact absurd hc hne
    | cons f fs => exact ⟨f, fs, rfl⟩
  have hurlb : isAbsoluteUrl best.link = true := hurl best hmem
  refine ⟨best, rk, (_extract_content_string best.content).2, hmem, hkey2, ?_, ?_⟩
  · rw [latest_in_category_eq pred notFoundMsg errPrefix feed f fs hfil]
    rw [hfil] at hsel
    rw [hsel]
    simp [mkWeeklyAWSJpDetailedUpdate, hurlb]
  · intro e he p hp
    exact hall e he p hp

/-- C1 witness: in the three-entry scenario the GenAI query selects the
five-day-old GenAI entry (although a fresher non-GenAI entry exists) and
the plain Weekly-AWS query selects the one-day-old entry. -/
theorem c1_latest_in_category_is_category_max_witness :
    (∃ best pub logs,
      best ∈ scenarioFeed.entries.filter (fun e => gen_ai_title_pred e.title) ∧
      datetimeUTC best.published_parsed = Except.ok pub ∧
      latest_in_category gen_ai_title_pred
          "最新の「週刊生成AI with AWS」記事が見つかりませんでした。"
          "最新の「週刊生成AI with AWS」記事詳細の処理中にエラー: " scenarioFeed
        = Except.ok (some ⟨best.title, best.link, pub, best.summary,
            (_extract_content_string best.content).1, none, [], none⟩, logs) ∧
      (∀ e ∈ scenarioFeed.entries.filter (fun e => gen_ai_title_pred e.title),
        ∀ p, datetimeUTC e.published_parsed = Except.ok p → p ≤ pub)) ∧
    get_latest_generative_ai_details scenarioFeed
      = Except.ok (some ⟨"Weekly-GenAI-with-AWS - 2024/03/25",
          "http://example.com/genai1", 1711627200, some "s2", some "c2",
          none, [], none⟩, []) ∧
    get_latest_weekly_aws_details scenarioFeed
      = Except.ok (some ⟨"Weekly-AWS - 2024/04/01",
          "http://example.com/weekly1", 1711972800, some "s1", some "c1",
          none, [], none⟩, []) :=
  ⟨c1_latest_in_category_is_category_max gen_ai_title_pred
      "最新の「週刊生成AI with AWS」記事が見つかりませんでした。"
      "最新の「週刊生成AI with AWS」記事詳細の処理中にエラー: "
      scenarioFeed (by decide) (by decide) (by decide),
   rfl, rfl⟩

/-- A feed whose single matching entry has a malformed
`published_parsed` tuple (month 13), so computing the maximum raises. -/
def badTsEntry : FeedEntry :=
  ⟨"Weekly-AWS broken timestamp", "http://example.com/broken",
    [2024, 13, 1, 0, 0, 0], none, RawContent.null⟩

def badTsFeed : Feed := ⟨[badTsEntry], false⟩

/-- C3: any exception raised while selecting the maximum-timestamp entry
or converting its timestamp (e.g. a malformed `published_parsed` tuple) is
caught at the `latest_in_category` boundary: the function still returns a
non-exceptional result, absence, and logs an error whose message contains
the exception's text and which carries stack-trace context
(`excInfo = true`). -/
theorem c3_latest_in_category_catches_selection_errors
    (pred : String → Bool) (notFoundMsg errPrefix : String) (feed : Feed) (ex : String)
    (hne : feed.entries.filter (fun e => pred e.title) ≠ [])
    (hsel : selectLatest (feed.entries.filter (fun e => pred e.title))
      = Except.error ex) :
    latest_in_category pred notFoundMsg errPrefix feed
      = Except.ok (none, [⟨LogLevel.error, errPrefix ++ ex, true⟩]) := by
  obtain ⟨f, fs, hfil⟩ :
      ∃ f fs, feed.entries.filter (fun e => pred e.title) = f :: fs := by
    cases hc : feed.entries.filter (fun e => pred e.title) with
    | nil => exact absurd hc hne
    | cons f fs => exact ⟨f, fs, rfl⟩
  rw [latest_in_category_eq pred notFoundMsg errPrefix feed f fs hfil]
  rw [hfil] at hsel
  rw [hsel]

/-- C3 witness: on the malformed-timestamp feed the Weekly-AWS picker
returns absence and logs the `ValueError` text with traceback context. -/
theorem c3_latest_in_category_catches_selection_errors_witness :
    latest_in_category weekly_aws_title_pred
        "最新の「週刊AWS」記事が見つかりませんでした。"
        "最新の「週刊AWS」記事詳細の処理中にエラー: " badTsFeed
      = Except.ok (none, [⟨LogLevel.error,
          "最新の「週刊AWS」記事詳細の処理中にエラー: "
            ++ "ValueError: datetime field out of range", true⟩]) :=
  c3_latest_in_category_catches_selection_errors weekly_aws_title_pred
    "最新の「週刊AWS」記事が見つかりませんでした。"
    "最新の「週刊AWS」記事詳細の処理中にエラー: " badTsFeed
    "ValueError: datetime field out of range" (by decide) (by rfl)

/-! ## Claims C4 and C5: the content normalizer -/

/-- C4: `_extract_content_string` returns absence without logging for
null, the empty string and the empty list; returns a non-empty plain
string unchanged; for a non-empty list inspects only the first element,
returning its string `value`, or absence plus a diagnostic naming the
observed type (the null type when the attribute is missing); and for any
other shape returns absence plus a diagnostic naming the observed type.
Later list elements are never consulted. -/
theorem c4_normalize_content_shapes :
    (_extract_content_string RawContent.null = (none, [])) ∧
    (_extract_content_string (RawContent.str "") = (none, [])) ∧
    (_extract_content_string (RawContent.list []) = (none, [])) ∧
    (∀ s : String, s ≠ "" → _extract_content_string (RawContent.str s) = (some s, [])) ∧
    (∀ (s : String) (rest : List ContentItem),
      _extract_content_string (RawContent.list (⟨some (AttrVal.str s)⟩ :: rest))
        = (some s, [])) ∧
    (∀ (t : String) (rest : List ContentItem),
      _extract_content_string (RawContent.list (⟨some (AttrVal.other t)⟩ :: rest))
        = (none, [warnLog ("content[0].value is not a string: " ++ t)])) ∧
    (∀ rest : List ContentItem,
      _extract_content_string (RawContent.list (⟨none⟩ :: rest))
        = (none, [warnLog "content[0].value is not a string: NoneType"])) ∧
    (∀ t : String,
      _extract_content_string (RawContent.other t)
        = (none, [warnLog ("unexpected content type: " ++ t)])) ∧
    (∀ (first : ContentItem) (rest rest2 : List ContentItem),
      _extract_content_string (RawContent.list (first :: rest))
        = _extract_content_string (RawContent.list (first :: rest2))) := by
  refine ⟨rfl, rfl, rfl, ?_, ?_, ?_, ?_, ?_, ?_⟩
  · intro s hs
    simp [_extract_content_string, hs]
  · intro s rest; rfl
  · intro t rest; rfl
  · intro rest; rfl
  · intro t; rfl
  · intro first rest rest2
    obtain ⟨v⟩ := first
    cases v with
    | none => rfl
    | some a => cases a with
      | str s => rfl
      | other t => rfl

/-- C4 witness: the non-empty plain string comes back unchanged, and only
the first element of a multi-element list is consulted. -/
theorem c4_normalize_content_shapes_witness :
    _extract_content_string (RawContent.str "x") = (some "x", []) ∧
    _extract_content_string (RawContent.list
      [⟨some (AttrVal.str "a")⟩, ⟨some (AttrVal.str "b")⟩]) = (some "a", []) :=
  ⟨c4_normalize_content_shapes.2.2.2.1 "x" (by decide),
   c4_normalize_content_shapes.2.2.2.2.1 "a" [⟨some (AttrVal.str "b")⟩]⟩

/-- C5: `_extract_content_string` is total over every content shape and
never produces an exceptional outcome: for every input it yields either a
string with no log, absence with no log (the recognized empty shapes), or
absence together with exactly one warning line. -/
theorem c5_normalize_content_total_never_raises (raw : RawContent) :
    ((∃ s, (_extract_content_string raw).1 = some s)
        ∧ (_extract_content_string raw).2 = []) ∨
    ((_extract_content_string raw).1 = none ∧ (_extract_content_string raw).2 = []) ∨
    ((_extract_content_string raw).1 = none ∧
      ∃ m, (_extract_content_string raw).2 = [warnLog m]) := by
  cases raw with
  | null => exact Or.inr (Or.inl ⟨rfl, rfl⟩)
  | str s =>
    by_cases hs : s = ""
    · subst hs
      exact Or.inr (Or.inl ⟨rfl, rfl⟩)
    · exact Or.inl ⟨⟨s, by simp [_extract_content_string, hs]⟩,
        by simp [_extract_content_string, hs]⟩
  | list items =>
    cases items with
    | nil => exact Or.inr (Or.inl ⟨rfl, rfl⟩)
    | cons first rest =>
      obtain ⟨v⟩ := first
      cases v with
      | none =>
        exact Or.inr (Or.inr ⟨rfl,
          ⟨"content[0].value is not a string: NoneType", rfl⟩⟩)
      | some a =>
        cases a with
        | str s => exact Or.inl ⟨⟨s, rfl⟩, rfl⟩
        | other t =>
          exact Or.inr (Or.inr ⟨rfl,
            ⟨"content[0].value is not a string: " ++ t, rfl⟩⟩)
  | other t =>
    exact Or.inr (Or.inr ⟨rfl, ⟨"unexpected content type: " ++ t, rfl⟩⟩)

/-! ## Claim C6: category disjointness -/

/-- C6: every title containing the GenAI marker fails the plain
Weekly-AWS predicate, so no title satisfies both category predicates. -/
theorem c6_category_predicates_disjoint (title : String) :
    (strContains title genAIMarker = true → weekly_aws_title_pred title = false) ∧
    (gen_ai_title_pred title = true → weekly_aws_title_pred title = false) := by
  constructor
  · intro h
    simp [weekly_aws_title_pred, h]
  · intro h
    simp only [gen_ai_title_pred] at h
    simp [weekly_aws_title_pred, h]

/-- C6 witness: a concrete GenAI-marked title is rejected by the plain
Weekly-AWS predicate while matching the GenAI predicate. -/
theorem c6_category_predicates_disjoint_witness :
    strContains "Weekly-GenAI-with-AWS - 2024/03/25" genAIMarker = true ∧
    weekly_aws_title_pred "Weekly-GenAI-with-AWS - 2024/03/25" = false ∧
    gen_ai_title_pred "Weekly-GenAI-with-AWS - 2024/03/25" = true :=
  ⟨by decide,
   (c6_category_predicates_disjoint "Weekly-GenAI-with-AWS - 2024/03/25").1 (by decide),
   by decide⟩

/-! ## Claim C9: the raw URL fetcher boundary -/

def isErrorMarker (s : String) : Bool :=
  headMatches "<error>".data s.data

lemma pySlice_length_le (s : String) (n : Nat) : (pySlice s n).length ≤ n := by
  simp only [pySlice, String.length]
  exact List.length_take_le _ _

/-- C9: `fetch_url_content` either returns text truncated to at most
`max_length` characters (successful response), or — when the request
fails in transport or with a non-2xx status — returns an inline
error-marker string and logs at error severity; the transport exception
never escapes the boundary (the function is total and both failure shapes
land in the marker-and-log branch). -/
theorem c9_fetch_url_content_error_boundary
    (req : RequestsResult) (readability : String → ReadabilityResult)
    (markdownify : String → String) (url : String) (max_length : Nat) :
    (∀ m, req = RequestsResult.requestException m →
      isErrorMarker (fetch_url_content req readability markdownify url max_length).1
        = true ∧
      errorLog ("URLからのコンテンツ取得中にエラーが発生しました: " ++ m)
        ∈ (fetch_url_content req readability markdownify url max_length).2) ∧
    (∀ status contentType body,
      req = RequestsResult.response status contentType body → 400 ≤ status →
      isErrorMarker (fetch_url_content req readability markdownify url max_length).1
        = true ∧
      ∃ m, errorLog m
        ∈ (fetch_url_content req readability markdownify url max_length).2) ∧
    (∀ status contentType body,
      req = RequestsResult.response status contentType body → status < 400 →
      (fetch_url_content req readability markdownify url max_length).1.length
        ≤ max_length) := by
  refine ⟨?_, ?_, ?_⟩
  · intro m hreq
    subst hreq
    constructor
    · rfl
    · simp [fetch_url_content]
  · intro status contentType body hreq hst
    subst hreq
    constructor
    · simp only [fetch_url_content, if_pos hst]
      rfl
    · refine ⟨"URLからのコンテンツ取得中にエラーが発生しました: "
        ++ ("HTTPError: " ++ toString status ++ " for url: " ++ url), ?_⟩
      simp [fetch_url_content, if_pos hst]
  · intro status contentType body hreq hst
    subst hreq
    simp only [fetch_url_content, if_neg (not_le.mpr hst)]
    exact pySlice_length_le _ _

/-- C9 witness: a transport failure yields the error marker plus an error
log, and a successful HTML response is truncated to the length cap. -/
theorem c9_fetch_url_content_error_boundary_witness :
    (isErrorMarker (fetch_url_content (RequestsResult.requestException "timeout")
        (fun _ => ReadabilityResult.empty) (fun s => s) "http://x.example/" 5000).1
      = true ∧
      errorLog ("URLからのコンテンツ取得中にエラーが発生しました: " ++ "timeout")
        ∈ (fetch_url_content (RequestsResult.requestException "timeout")
            (fun _ => ReadabilityResult.empty) (fun s => s) "http://x.example/" 5000).2) ∧
    (fetch_url_content (RequestsResult.response 200 "text/html" "<p>hello</p>")
        (fun _ => ReadabilityResult.content "hello") (fun s => s)
        "http://x.example/" 3).1.length ≤ 3 :=
  ⟨(c9_fetch_url_content_error_boundary (RequestsResult.requestException "timeout")
      (fun _ => ReadabilityResult.empty) (fun s => s) "http://x.example/" 5000).1
      "timeout" rfl,
   (c9_fetch_url_content_error_boundary (RequestsResult.response 200 "text/html" "<p>hello</p>")
      (fun _ => ReadabilityResult.content "hello") (fun s => s) "http://x.example/" 3).2.2
      200 "text/html" "<p>hello</p>" rfl (by decide)⟩

/-! ## Claim C10: scraped date preferred over feed date -/

/-- C10: whenever the global latest picker yields a base record, the
detailed record keeps the base metadata but takes its `published` value
from the scraped page date when the scrape yields one, falling back to the
feed timestamp only when the scrape yields no date. -/
theorem c10_details_prefer_scraped_date
    (feed : Feed) (scrape : String → ArticleDetails) (base : WeeklyAWSJpUpdate)
    (h : fetch_latest_jp_entry feed = Except.ok (some base)) :
    ∃ r, fetch_latest_jp_entry_with_details feed scrape = Except.ok (some r) ∧
      r.title = base.title ∧ r.url = base.url ∧ r.summary = base.summary ∧
      r.content = (scrape base.url).content ∧
      (∀ d, (scrape base.url).published_date = some d → r.published = d) ∧
      ((scrape base.url).published_date = none → r.published = base.published) := by
  unfold fetch_latest_jp_entry_with_details
  rw [h]
  refine ⟨_, rfl, rfl, rfl, rfl, rfl, ?_, ?_⟩
  · intro d hd
    simp [hd]
  · intro hd
    simp [hd]

def scrapeStub : String → ArticleDetails :=
  fun _ => ⟨some "scraped body", some "author", ["tag1"], some 1712000000⟩

/-- C10 witness: on the scenario feed with a scraper that returns a page
date, the detailed record's `published` equals the scraped date, not the
feed timestamp. -/
theorem c10_details_prefer_scraped_date_witness :
    ∃ r, fetch_latest_jp_entry_with_details scenarioFeed scrapeStub
        = Except.ok (some r) ∧
      r.title = recWeekly1.title ∧ r.url = recWeekly1.url ∧
      r.summary = recWeekly1.summary ∧
      r.content = (scrapeStub recWeekly1.url).content ∧
      (∀ d, (scrapeStub recWeekly1.url).published_date = some d → r.published = d) ∧
      ((scrapeStub recWeekly1.url).published_date = none
        → r.published = recWeekly1.published) :=
  c10_details_prefer_scraped_date scenarioFeed scrapeStub recWeekly1 (by rfl)

end AwsWeeklyNews
